import Mathlib

/-!
Shallow embedding of the omega-bull-data-manager shared-memory data plane
and NDJSON control plane, with theorems checking the specification's claims
against the code.

Source files embedded:
* `src/shared_memory/columnar_layout.py`  (header struct, `compute_layout`, `ring_slice`)
* `src/shared_memory/columnar_writer.py`  (`ColumnarWriter.append`)
* `src/shared_memory/columnar_reader.py`  (`ColumnarReader._read_cols`, `view_last_n`, `view_since`)
* `src/shared_memory/shared_memory_manager.py` (`SharedMemoryManager.write_data`)
* `src/shared_memory/shared_memory_reader.py`  (`StockDataReader.get_stock`)
* `src/quote_server.py` (`NDJSONServer.handle_client`: envelope validation, `get_quote`)

Machine integers are modelled as `Nat`/`Int` (the Python integers are unbounded;
the u64/u32 header fields never approach their width in any claim considered).
Prices are modelled as `ℚ`: the code only stores and retrieves them, so float32
quantization does not affect any ordering or selection property proved here.
-/

namespace ColumnarLayout

/-- `struct.Struct("<QQQI")`: three u64 fields and one u32 field, little-endian,
no padding, as sized by Python's `struct` module for the `<` byte order. -/
def HEADER_SIZE : Nat := 8 + 8 + 8 + 4

/-- Offsets for a single ticker within the shared memory region
(`TickerLayout` dataclass of `columnar_layout.py`). -/
structure TickerLayout where
  offset : Nat
  capacity : Nat
  ts_off : Nat
  o_off : Nat
  h_off : Nat
  l_off : Nat
  c_off : Nat
  v_off : Nat
  ending : Nat
  deriving Repr, DecidableEq

/-- `compute_layout(base_off, capacity)` from `columnar_layout.py`:
header followed by six typed columns with no padding. -/
def compute_layout (base_off capacity : Nat) : TickerLayout :=
  let ts_off := base_off + HEADER_SIZE
  let o_off := ts_off + 8 * capacity
  let h_off := o_off + 4 * capacity
  let l_off := h_off + 4 * capacity
  let c_off := l_off + 4 * capacity
  let v_off := c_off + 4 * capacity
  let ending := v_off + 8 * capacity
  { offset := base_off, capacity := capacity, ts_off := ts_off, o_off := o_off,
    h_off := h_off, l_off := l_off, c_off := c_off, v_off := v_off, ending := ending }

/-- Total fixed region size for a static ticker index: each ticker occupies the
bytes from its base offset to `(compute_layout base cap).ending`. -/
def tickerSpan (capacity : Nat) : Nat :=
  (compute_layout 0 capacity).ending

/-- Fixed region size over a list of per-ticker capacities (the sum of the spans
of the per-ticker blocks laid end to end). -/
def totalRegionSize (caps : List Nat) : Nat :=
  (caps.map tickerSpan).sum

/-- `ring_slice(arr, start, end, capacity)` from `columnar_layout.py`.
`start` and `end` are reduced with Python's `%` (which `Int.emod` matches for a
positive modulus); `arr[a:b]`, `arr[a:]`, `arr[:b]` are Python slices. -/
def ring_slice {α : Type} (arr : List α) (start endIdx : Int) (capacity : Nat) : List α :=
  let s := (start % (capacity : Int)).toNat
  let e := (endIdx % (capacity : Int)).toNat
  if s < e then
    (arr.drop s).take (e - s)
  else if s = e then
    -- full buffer
    arr.drop s ++ arr.take s
  else
    arr.drop s ++ arr.take e

end ColumnarLayout

namespace ColumnarRing

open ColumnarLayout

/-- One OHLCV row as passed to `ColumnarWriter.append(ticker, ts, o, h, l, c, v)`. -/
structure Row where
  ts : Int
  o : ℚ
  h : ℚ
  l : ℚ
  c : ℚ
  v : Int
  deriving Repr, DecidableEq

/-- The per-ticker header `{write_idx, capacity, last_ts, seqlock}`. -/
structure Header where
  write_idx : Nat
  capacity : Nat
  last_ts : Int
  seqlock : Nat
  deriving Repr, DecidableEq

/-- Reader-visible state of one ticker's block: the header plus the six columns.
The columns always have length `capacity`. -/
structure TickerState where
  header : Header
  ts : List Int
  o : List ℚ
  h : List ℚ
  l : List ℚ
  c : List ℚ
  v : List Int
  deriving Repr, DecidableEq

/-- `ColumnarWriter.__init__` writes `write_header(buf, layout, 0, capacity, 0, 0)`
and the freshly created shared memory region is zero-filled. -/
def initState (cap : Nat) : TickerState :=
  { header := { write_idx := 0, capacity := cap, last_ts := 0, seqlock := 0 },
    ts := List.replicate cap 0,
    o := List.replicate cap 0,
    h := List.replicate cap 0,
    l := List.replicate cap 0,
    c := List.replicate cap 0,
    v := List.replicate cap 0 }

/-- `ColumnarWriter.append`: read the header, bump the seqlock to odd, store the
six values at ring slot `write_idx`, advance `write_idx = (write_idx + 1) % cap`,
then publish the even header with `last_ts = ts`.  This sequential model records
the final (even, stable) state; the intermediate odd header matters only to the
concurrent-read model in `ReaderRetry`. -/
def append (st : TickerState) (r : Row) : TickerState :=
  let wi := st.header.write_idx
  let cap := st.header.capacity
  { header := { write_idx := (wi + 1) % cap, capacity := cap,
                last_ts := r.ts, seqlock := st.header.seqlock + 2 },
    ts := st.ts.set wi r.ts,
    o := st.o.set wi r.o,
    h := st.h.set wi r.h,
    l := st.l.set wi r.l,
    c := st.c.set wi r.c,
    v := st.v.set wi r.v }

/-- Sequentially append a list of rows. -/
def appendAll (st : TickerState) (rows : List Row) : TickerState :=
  rows.foldl append st

/-- The tuple of six column slices a reader view returns. -/
structure ColsView where
  ts : List Int
  o : List ℚ
  h : List ℚ
  l : List ℚ
  c : List ℚ
  v : List Int
  deriving Repr, DecidableEq

/-- `ColumnarReader.view_last_n(ticker, n)` on a stable state: clamp `n` to the
capacity, take `end = write_idx`, `start = (end - n) % cap` (Python `%`), and
ring-slice every column. -/
def viewLastN (st : TickerState) (n : Nat) : ColsView :=
  let cap := st.header.capacity
  let n' := min n cap
  let e : Int := st.header.write_idx
  let s : Int := (e - n') % (cap : Int)
  { ts := ring_slice st.ts s e cap,
    o := ring_slice st.o s e cap,
    h := ring_slice st.h s e cap,
    l := ring_slice st.l s e cap,
    c := ring_slice st.c s e cap,
    v := ring_slice st.v s e cap }

/-- Keep `col[i]` exactly when `mask[i]` is true (NumPy boolean masking). -/
def maskFilter {α : Type} (mask : List Bool) (col : List α) : List α :=
  ((mask.zip col).filter (fun p => p.1)).map (fun p => p.2)

/-- `ColumnarReader.view_since(ticker, ts_threshold)`: read the full ring via
`view_last_n(capacity)` and keep the rows whose timestamp strictly exceeds the
threshold, all six columns index-aligned. -/
def viewSince (st : TickerState) (thr : Int) : ColsView :=
  let cap := st.header.capacity
  let cols := viewLastN st cap
  let mask := cols.ts.map (fun t => decide (thr < t))
  { ts := maskFilter mask cols.ts,
    o := maskFilter mask cols.o,
    h := maskFilter mask cols.h,
    l := maskFilter mask cols.l,
    c := maskFilter mask cols.c,
    v := maskFilter mask cols.v }

/-- The row appended for timestamp `i` in the `ts=0..6` smoke scenario
(`test_columnar_ring.py`: `append("TEST", i, float(i), float(i), float(i), float(i), i*10)`). -/
def scenarioRow (i : Nat) : Row :=
  { ts := i, o := i, h := i, l := i, c := i, v := 10 * i }

/-- The capacity-5 ring after appending `ts = 0..6`. -/
def scenarioState : TickerState :=
  appendAll (initState 5) ((List.range 7).map scenarioRow)

end ColumnarRing

namespace ReaderRetry

open ColumnarRing

/-- The six raw column views of one ticker block at one instant. -/
def colsOf (st : TickerState) : ColsView :=
  { ts := st.ts, o := st.o, h := st.h, l := st.l, c := st.c, v := st.v }

/-- `ColumnarReader._read_cols` against a concurrently evolving region.  The
shared buffer is modelled as a trace `t : Nat → TickerState`: each primitive
access (`read_header` or `column_views`) observes the buffer at the next
instant.  The code reads header, columns, header again; if the second header is
odd or disagrees with the first it re-reads columns and header once and returns
that second read with no further check.  The returned `Header` is the
`_last_header` the view methods subsequently use. -/
def readCols (t : Nat → TickerState) : ColsView × Header :=
  let header := (t 0).header
  let cols := colsOf (t 1)
  let header2 := (t 2).header
  if header2.seqlock % 2 = 1 ∨ header2 ≠ header then
    -- retry once
    (colsOf (t 3), (t 4).header)
  else
    (cols, header2)

/-- A region whose writer is permanently mid-write: every observation has an
odd seqlock. -/
def oddTrace : Nat → TickerState := fun _ =>
  { header := { write_idx := 0, capacity := 1, last_ts := 0, seqlock := 1 },
    ts := [7], o := [0], h := [0], l := [0], c := [0], v := [0] }

end ReaderRetry

namespace Snapshot

/-- One serialized OHLCV row of `StockData.to_serializable_dict()["df"]`. -/
structure SnapRow where
  Date : String
  Open : ℚ
  High : ℚ
  Low : ℚ
  Close : ℚ
  Volume : Int
  deriving Repr, DecidableEq

/-- `StockData.to_serializable_dict()`: `{ticker, start_date, cur_date,
end_date, period, df}`.  A `df` of Python `None` and an empty row list behave
identically in `write_data` (`data_dict.get("df")` is falsy for both), so both
are modelled as `[]`. -/
structure TickerRecord where
  ticker : String
  start_date : String
  cur_date : String
  end_date : String
  period : String
  df : List SnapRow
  deriving Repr, DecidableEq

/-- Per-ticker snapshot entry header `{version, epoch, last_update_ms, writer_pid}`. -/
structure EntryHeader where
  version : Nat
  epoch : Nat
  last_update_ms : Int
  writer_pid : Nat
  deriving Repr, DecidableEq

/-- A `SnapshotEntry`: header plus the serialized data (absent until first written). -/
structure SnapEntry where
  header : EntryHeader
  data : Option TickerRecord
  deriving Repr, DecidableEq

/-- A cached quote as stored by `write_data` into `quote_cache` and served by
`get_quote`.  `ts_epoch_ms` is optional because the server reads it with
`quote.get("ts_epoch_ms", 0)`; entries written by `write_data` always carry it. -/
structure Quote where
  price : ℚ
  volume : Int
  currency : String
  ts_epoch_ms : Option Int
  source : String
  deriving Repr, DecidableEq

/-- `GlobalSnapshotState`: `{epoch, last_update_ms}`. -/
structure GlobalState where
  epoch : Nat
  last_update_ms : Int
  deriving Repr, DecidableEq

/-- Association-list lookup, modelling Python `dict.get`. -/
def alookup {α : Type} : List (String × α) → String → Option α
  | [], _ => none
  | (k, v) :: rest, key => if k = key then some v else alookup rest key

/-- Association-list store, modelling Python `dict[key] = value` (update in
place, or append a new key). -/
def aset {α : Type} : List (String × α) → String → α → List (String × α)
  | [], k, v => [(k, v)]
  | (k', v') :: rest, k, v =>
    if k' = k then (k, v) :: rest else (k', v') :: aset rest k v

/-- The mutable state `SharedMemoryManager` owns: the shared dictionary of
snapshot entries, the quote cache and the global snapshot state. -/
structure ManagerState where
  shared_dict : List (String × SnapEntry)
  quote_cache : List (String × Quote)
  snapshot_state : GlobalState
  deriving Repr, DecidableEq

/-- State after `SharedMemoryManager.__init__` (empty dict, empty cache,
`{"epoch": 0, "last_update_ms": 0}`). -/
def initManager : ManagerState :=
  { shared_dict := [], quote_cache := [], snapshot_state := { epoch := 0, last_update_ms := 0 } }

/-- The body of `write_data`'s per-record loop.  `dateMs` models
`time.mktime(time.strptime(date, "%Y-%m-%d")) * 1000` and `now` models
`int(time.time() * 1000)` (the code samples the clock per record; all samples
within one batch are modelled by the one value `now`).  The entry is fetched
(or created with epoch 0), its epoch bumped to odd, the data and
`last_update_ms` stored, the epoch bumped back to even, and the quote cache
updated from the record's last row when the row list is non-empty.  The
best-effort CSV mirror is an external side effect with no bearing on this
state and is not modelled. -/
def writeOne (dateMs : String → Int) (now : Int) (pid : Nat)
    (st : ManagerState) (rec : TickerRecord) : ManagerState :=
  let key := rec.ticker
  let entry := (alookup st.shared_dict key).getD
    { header := { version := 1, epoch := 0, last_update_ms := 0, writer_pid := pid },
      data := none }
  let entry1 : SnapEntry :=
    { entry with header := { entry.header with epoch := entry.header.epoch + 1 } }
  let dict1 := aset st.shared_dict key entry1
  let entry2 : SnapEntry :=
    { header := { entry1.header with epoch := entry1.header.epoch + 1, last_update_ms := now },
      data := some rec }
  let dict' := aset dict1 key entry2
  let cache' := match rec.df.getLast? with
    | some last =>
      aset st.quote_cache key
        { price := last.Close, volume := last.Volume, currency := "USD",
          ts_epoch_ms := some (dateMs last.Date), source := "shared_memory_manager" }
    | none => st.quote_cache
  { st with shared_dict := dict', quote_cache := cache' }

/-- `SharedMemoryManager.write_data(stock_data_list)` under the batch lock:
global epoch to odd, per-record writes, then `last_update_ms = now` and global
epoch back to even. -/
def write_data (dateMs : String → Int) (now : Int) (pid : Nat)
    (st : ManagerState) (records : List TickerRecord) : ManagerState :=
  let st1 := { st with snapshot_state := { st.snapshot_state with epoch := st.snapshot_state.epoch + 1 } }
  let st2 := records.foldl (writeOne dateMs now pid) st1
  { st2 with snapshot_state := { epoch := st2.snapshot_state.epoch + 1, last_update_ms := now } }

/-- The `AAPL` record of the snapshot-publisher scenario: close 11.5,
volume 1500, date `2024-01-01`. -/
def aaplRecord : TickerRecord :=
  { ticker := "AAPL", start_date := "2024-01-01", cur_date := "2024-01-01",
    end_date := "2024-01-01", period := "1 D",
    df := [{ Date := "2024-01-01", Open := 11.5, High := 11.5, Low := 11.5,
             Close := 11.5, Volume := 1500 }] }

end Snapshot

namespace SnapshotReader

open Snapshot

/-- A ticker entry as the reader decodes it from JSON: the epoch reached by
`entry.get("header", {}).get("epoch")` (absent header or epoch gives `none`) and
the payload reached by `entry.get("data")`. -/
structure REntry where
  epoch : Option Int
  data : Option TickerRecord
  deriving Repr, DecidableEq

/-- One call to `StockDataReader._load_dict()` against the concurrently written
segment: either a `json.JSONDecodeError` (partial write) or a decoded
dictionary. -/
inductive LoadObs where
  | decodeErr
  | ok (d : List (String × REntry))
  deriving Repr, DecidableEq

/-- `data.get(ticker, {}).get("header", {}).get("epoch")` on a decoded dict. -/
def epochOf (d : List (String × REntry)) (ticker : String) : Option Int :=
  (alookup d ticker).bind (fun en => en.epoch)

/-- Outcome of `get_stock`: a returned payload, a `KeyError` for an unknown
ticker, or the `RuntimeError("Could not obtain a stable snapshot after
retries")` raised after the retry budget is exhausted. -/
inductive GetResult where
  | payload (p : Option TickerRecord)
  | keyErr
  | unstable
  deriving Repr, DecidableEq

/-- The loop body of `StockDataReader.get_stock` (shared-memory path).  The
sequence of `_load_dict()` calls is modelled by the stream `loads`; `pos` is the
index of the next call and `fuel` the remaining iterations of
`range(max_retries)`.  Each iteration: load (decode error ⇒ next attempt);
missing ticker ⇒ `KeyError`; missing or odd first epoch ⇒ next attempt;
otherwise re-load and return the payload iff the second epoch equals the first
and is even; a failed bracket ⇒ next attempt.  Fuel 0 is the loop falling
through to the `RuntimeError`. -/
def getStockGo (loads : Nat → LoadObs) (ticker : String) : Nat → Nat → GetResult
  | _, 0 => .unstable
  | pos, fuel + 1 =>
    match loads pos with
    | .decodeErr => getStockGo loads ticker (pos + 1) fuel
    | .ok d =>
      match alookup d ticker with
      | none => .keyErr
      | some entry =>
        match entry.epoch with
        | none => getStockGo loads ticker (pos + 1) fuel
        | some e1 =>
          if e1 % 2 ≠ 0 then getStockGo loads ticker (pos + 1) fuel
          else
            match loads (pos + 1) with
            | .decodeErr => getStockGo loads ticker (pos + 2) fuel
            | .ok d2 =>
              if epochOf d2 ticker = some e1 ∧ e1 % 2 = 0 then .payload entry.data
              else getStockGo loads ticker (pos + 2) fuel

/-- `StockDataReader.get_stock(ticker)` with an attached segment and no
configured layout: run the retry loop from the first load. -/
def get_stock (loads : Nat → LoadObs) (ticker : String) (max_retries : Nat) : GetResult :=
  getStockGo loads ticker 0 max_retries

/-- Default `max_retries` of `StockDataReader.__init__`. -/
def defaultMaxRetries : Nat := 6

/-- A segment whose writer never completes: every load decodes, the ticker is
present, but its epoch is always odd. -/
def oddLoads : Nat → LoadObs := fun _ =>
  .ok [("AAPL", { epoch := some 1, data := none })]

end SnapshotReader

namespace QuoteServer

open Snapshot

/-- The envelope fields of one decoded request line that
`NDJSONServer.handle_client` inspects.  `v` is `request.get("v")` (the code only
compares it with `1`, so every present non-`1` JSON value behaves like
`some 0`); `id` is `request.get("id")` (a JSON `null` id and an absent id both
read back as Python `None`, hence `none`); `hasTypeField` is
`"type" in request` and `typeName` the field's value when present; `ticker` is
`request.get("ticker")` (absent, `null` and non-string values other than a
non-empty string all fail the `if not ticker` truthiness check together with
`""`, hence `none` covers them). -/
structure Request where
  v : Option Int
  id : Option String
  hasTypeField : Bool
  typeName : String
  ticker : Option String
  deriving Repr, DecidableEq

/-- Payload of a success response relevant to the embedded operations:
`get_quote` answers with the cached quote plus the echoed ticker and the
computed staleness flag. -/
inductive RespData where
  | quote (q : Quote) (ticker : String) (stale : Bool)
  deriving Repr, DecidableEq

/-- One NDJSON response line: `{v:1, id, type:"response", op, data}` or
`{v:1, id, type:"error", error:{code, message}}`. -/
inductive Response where
  | ok (id : Option String) (op : String) (data : RespData)
  | err (id : Option String) (code : String) (message : String)
  deriving Repr, DecidableEq

/-- The `missing` list collected by the envelope validation: `"v"` unless
`request.get("v") == 1`, `"id"` when `request.get("id") is None`, `"type"`
when `"type" not in request`, in that order. -/
def missingFields (r : Request) : List String :=
  (if r.v ≠ some 1 then ["v"] else []) ++
    (if r.id = none then ["id"] else []) ++
      (if r.hasTypeField then [] else ["type"])

/-- Envelope validation of `handle_client`: when any required field is missing
the server sends exactly one `BAD_REQUEST` error naming all missing fields and
continues with the next line (`none` here means validation passed and the
request is dispatched). -/
def envelopeResult (r : Request) : Option Response :=
  if missingFields r ≠ [] then
    some (.err r.id "BAD_REQUEST"
      ("Missing required fields: " ++ String.intercalate ", " (missingFields r)))
  else
    none

/-- The `get_quote` branch of `handle_client`: reject a missing/empty ticker,
answer `NOT_FOUND` for a ticker absent from the quote cache, otherwise echo the
cached quote with `stale = (now_ms - quote.get("ts_epoch_ms", 0)) >
freshness_window_ms`. -/
def getQuoteResponse (cache : List (String × Quote)) (now_ms freshness_window_ms : Int)
    (r : Request) : Response :=
  match r.ticker with
  | none => .err r.id "BAD_REQUEST" "Missing ticker"
  | some t =>
    match alookup cache t with
    | none => .err r.id "NOT_FOUND" ("Unknown ticker " ++ t)
    | some q =>
      .ok r.id "get_quote"
        (.quote q t (decide (now_ms - (q.ts_epoch_ms.getD 0) > freshness_window_ms)))

/-- Default `freshness_window_ms` of `NDJSONServer.__init__`. -/
def defaultFreshnessWindowMs : Int := 90000

/-- The staleness flag of a response, when it is a quote response. -/
def staleOf : Response → Option Bool
  | .ok _ _ (.quote _ _ s) => some s
  | _ => none

/-- The quoted price of a response, when it is a quote response. -/
def priceOf : Response → Option ℚ
  | .ok _ _ (.quote q _ _) => some q.price
  | _ => none

end QuoteServer

namespace Arbitration

/-- Ownership of the singleton IBKR connection: `FREE` or `HELD(owner)`. -/
inductive Owner where
  | free
  | held (conn : Nat)
  deriving Repr, DecidableEq

/-- Control-plane state the arbitration handlers consult: the ownership flag
and the collaborator's `is_downloading` flag. -/
structure ArbState where
  owner : Owner
  downloading : Bool
  deriving Repr, DecidableEq

/-- Reply of an arbitration handler: a `{status, reason?}` data response or an
error response with the given code. -/
inductive Reply where
  | statusReply (status : String) (reason : Option String)
  | errReply (code : String)
  deriving Repr, DecidableEq

/-- Instruction sent to the data-acquisition collaborator. -/
inductive Effect where
  | disconnectTws
  | connectTws
  deriving Repr, DecidableEq

/-- Modelled from the spec: the `acquire_ibkr` handler of the control-plane
server's resource-arbitration state machine is absent from `src/`
(`src/quote_server.py` has no such branch; only `src/tests/test_server.py` and
`src/tests/test_ibkr_api.py` exercise it).  Per the spec: if a download is in
progress, refuse with `{status:"denied", reason:"wait until stock download is
finished"}` and leave the state unchanged; from `FREE`, instruct the
collaborator to relinquish its connection (`disconnect_from_ibkr_tws`) and
answer `{status:"acquired"}`; from `HELD`, answer a `CONFLICT` error and keep
the state. -/
def acquireIbkr (conn : Nat) (st : ArbState) : ArbState × Reply × List Effect :=
  if st.downloading then
    (st, .statusReply "denied" (some "wait until stock download is finished"), [])
  else
    match st.owner with
    | .free => ({ st with owner := .held conn }, .statusReply "acquired" none, [.disconnectTws])
    | .held _ => (st, .errReply "CONFLICT", [])

/-- Modelled from the spec: the `release_ibkr` handler, likewise absent from
`src/`.  From `HELD`, instruct the collaborator to reconnect
(`connect_to_ibkr_tws`), answer `{status:"released"}` and return to `FREE`;
from `FREE`, answer a `BAD_REQUEST` error ("no acquired connection to
release") with no state change.  The spec labels the releasing transition with
the owner and specifies no owner check beyond that, and the repository's tests
release without one, so none is modelled. -/
def releaseIbkr (st : ArbState) : ArbState × Reply × List Effect :=
  match st.owner with
  | .held _ => ({ st with owner := .free }, .statusReply "released" none, [.connectTws])
  | .free => (st, .errReply "BAD_REQUEST", [])

/-- The initial arbitration state of the claimed scenario: resource `FREE`,
no download in progress. -/
def freeIdle : ArbState := { owner := .free, downloading := false }

end Arbitration

namespace ColumnarRing

/-- The effect of a sequence of appends on one column: store each value at the
write cursor and advance the cursor modulo the capacity.  `appendAll` acts as
`writeSeq` on each of the six columns (`appendAll_cols`). -/
def writeSeq {α : Type} (cap : Nat) : List α → Nat → List α → List α
  | col, _, [] => col
  | col, w, x :: rest => writeSeq cap (col.set w x) ((w + 1) % cap) rest

end ColumnarRing

namespace ColumnarRing

/-- The six columns a list of rows projects to, in row order: what a full
in-order view of those rows should equal. -/
def colsOfRows (rows : List Row) : ColsView :=
  { ts := rows.map Row.ts, o := rows.map Row.o, h := rows.map Row.h,
    l := rows.map Row.l, c := rows.map Row.c, v := rows.map Row.v }

end ColumnarRing

namespace Snapshot

/-- All snapshot entries reachable in a shared dictionary have an even (stable)
header epoch. -/
def dictEven (l : List (String × SnapEntry)) : Prop :=
  ∀ k en, alookup l k = some en → en.header.epoch % 2 = 0

/-- A concrete stand-in for `time.mktime(time.strptime(date, "%Y-%m-%d")) * 1000`
used to evaluate the publish scenario (the epoch milliseconds of 2024-01-01 UTC). -/
def demoDateMs : String → Int := fun _ => 1704067200000

/-- The manager state after the scenario batch: publishing `aaplRecord` from a
fresh manager at clock value `demoDateMs ""`. -/
def scenarioManager : ManagerState :=
  write_data demoDateMs (demoDateMs "") 41 initManager [aaplRecord]

end Snapshot

namespace QuoteServer

/-- A well-formed `get_quote` request for `AAPL` (envelope complete). -/
def aaplQuoteRequest : Request :=
  { v := some 1, id := some "2", hasTypeField := true, typeName := "get_quote",
    ticker := some "AAPL" }

/-- The request line `{v:1}`: `v` present and equal to `1`, both `id` and
`type` absent. -/
def vOnlyRequest : Request :=
  { v := some 1, id := none, hasTypeField := false, typeName := "", ticker := none }

end QuoteServer

namespace ColumnarRing

open ColumnarLayout

theorem writeSeq_length {α : Type} (cap : Nat) :
    ∀ (xs col : List α) (w : Nat), (writeSeq cap col w xs).length = col.length
  | [], _, _ => rfl
  | _ :: rest, col, w => by
    simpa [writeSeq, List.length_set] using writeSeq_length cap rest (col.set w _) ((w + 1) % cap)

theorem writeSeq_getElem?_untouched {α : Type} (cap : Nat) (hcap : 0 < cap) :
    ∀ (xs col : List α) (w : Nat), w < cap →
      ∀ j : Nat, (∀ i, i < xs.length → (w + i) % cap ≠ j) →
        (writeSeq cap col w xs)[j]? = col[j]?
  | [], _, _, _, _, _ => rfl
  | x :: rest, col, w, hw, j, hj => by
    have hwj : w ≠ j := by
      have := hj 0 (by simp)
      simpa [Nat.mod_eq_of_lt hw] using this
    have step := writeSeq_getElem?_untouched cap hcap rest (col.set w x) ((w + 1) % cap)
      (Nat.mod_lt _ hcap) j
      (by
        intro i hi
        have h2 := hj (i + 1) (by simpa using Nat.succ_lt_succ hi)
        intro heq
        apply h2
        rw [Nat.mod_add_mod] at heq
        rw [show w + (i + 1) = w + 1 + i by omega]
        exact heq)
    calc (writeSeq cap col w (x :: rest))[j]?
        = (col.set w x)[j]? := step
      _ = col[j]? := List.getElem?_set_ne hwj

theorem writeSeq_getElem?_written {α : Type} (cap : Nat) (hcap : 0 < cap) :
    ∀ (xs col : List α) (w : Nat), col.length = cap → w < cap → xs.length ≤ cap →
      ∀ i, i < xs.length → (writeSeq cap col w xs)[(w + i) % cap]? = xs[i]?
  | [], _, _, _, _, _, i, hi => absurd hi (by simp)
  | x :: rest, col, w, hcol, hw, hxs, i, hi => by
    match i with
    | 0 =>
      rw [Nat.add_zero, Nat.mod_eq_of_lt hw]
      have untouched := writeSeq_getElem?_untouched cap hcap rest (col.set w x)
        ((w + 1) % cap) (Nat.mod_lt _ hcap) w
        (by
          intro i hi heq
          rw [Nat.mod_add_mod] at heq
          have hmem : (w + (1 + i)) % cap = (w + 0) % cap := by
            rw [Nat.add_zero, Nat.mod_eq_of_lt hw, show w + (1 + i) = w + 1 + i by omega]
            exact heq
          have hcancel : (1 + i) % cap = 0 % cap :=
            Nat.ModEq.add_left_cancel' w hmem
          have hdvd : cap ∣ (1 + i) := Nat.modEq_zero_iff_dvd.mp hcancel
          have hle : cap ≤ 1 + i := Nat.le_of_dvd (by omega) hdvd
          have : rest.length + 1 ≤ cap := by simpa using hxs
          omega)
      calc (writeSeq cap col w (x :: rest))[w]?
          = (col.set w x)[w]? := untouched
        _ = some x := List.getElem?_set_eq_of_lt x (by omega)
        _ = (x :: rest)[0]? := by simp
    | i + 1 =>
      have hidx : (w + (i + 1)) % cap = ((w + 1) % cap + i) % cap := by
        rw [Nat.mod_add_mod]
        congr 1
        omega
      rw [hidx]
      have step := writeSeq_getElem?_written cap hcap rest (col.set w x) ((w + 1) % cap)
        (by simpa [List.length_set] using hcol) (Nat.mod_lt _ hcap)
        (by simpa using Nat.le_of_succ_le hxs) i (by simpa using Nat.lt_of_succ_lt_succ hi)
      simpa using step

theorem writeSeq_full_rotate {α : Type} (cap : Nat) (hcap : 0 < cap)
    (col xs : List α) (w : Nat) (hcol : col.length = cap) (hxs : xs.length = cap)
    (hw : w < cap) : (writeSeq cap col w xs).rotate w = xs := by
  have hlen : (writeSeq cap col w xs).length = cap := by
    rw [writeSeq_length, hcol]
  apply List.ext_getElem?
  intro p
  by_cases hp : p < cap
  · rw [List.getElem?_rotate (by rw [hlen]; exact hp), hlen, Nat.add_comm p w]
    exact writeSeq_getElem?_written cap hcap xs col w hcol hw (le_of_eq hxs) p (by omega)
  · rw [List.getElem?_eq_none (by rw [List.length_rotate, hlen]; omega),
      List.getElem?_eq_none (by rw [hxs]; omega)]

theorem appendAll_fields : ∀ (rows : List Row) (st : TickerState),
    (appendAll st rows).header.capacity = st.header.capacity ∧
    (appendAll st rows).ts
        = writeSeq st.header.capacity st.ts st.header.write_idx (rows.map Row.ts) ∧
    (appendAll st rows).o
        = writeSeq st.header.capacity st.o st.header.write_idx (rows.map Row.o) ∧
    (appendAll st rows).h
        = writeSeq st.header.capacity st.h st.header.write_idx (rows.map Row.h) ∧
    (appendAll st rows).l
        = writeSeq st.header.capacity st.l st.header.write_idx (rows.map Row.l) ∧
    (appendAll st rows).c
        = writeSeq st.header.capacity st.c st.header.write_idx (rows.map Row.c) ∧
    (appendAll st rows).v
        = writeSeq st.header.capacity st.v st.header.write_idx (rows.map Row.v)
  | [], st => by simp [appendAll, writeSeq]
  | r :: rest, st => by
    have ih := appendAll_fields rest (append st r)
    simpa [appendAll, append, writeSeq] using ih

theorem appendAll_write_idx : ∀ (rows : List Row) (st : TickerState),
    0 < st.header.capacity → st.header.write_idx < st.header.capacity →
    (appendAll st rows).header.write_idx
      = (st.header.write_idx + rows.length) % st.header.capacity
  | [], st, _, hw => by simp [appendAll, Nat.mod_eq_of_lt hw]
  | r :: rest, st, hc, _ => by
    have ih := appendAll_write_idx rest (append st r) (by simpa [append] using hc)
      (by simp only [append]; exact Nat.mod_lt _ hc)
    simp only [appendAll, List.foldl_cons] at ih ⊢
    rw [ih]
    simp only [append, List.length_cons, Nat.mod_add_mod]
    congr 1
    omega

theorem ring_slice_congr {α : Type} (arr : List α) (s s' e e' : Int) (cap : Nat)
    (hs : s % (cap : Int) = s' % (cap : Int)) (he : e % (cap : Int) = e' % (cap : Int)) :
    ring_slice arr s e cap = ring_slice arr s' e' cap := by
  unfold ring_slice
  rw [hs, he]

theorem ring_slice_self {α : Type} (arr : List α) (x : Int) (cap : Nat)
    (hlen : arr.length = cap) (hcap : 0 < cap) :
    ring_slice arr x x cap = arr.rotate (x % (cap : Int)).toNat := by
  have hcap' : (0 : Int) < (cap : Int) := by exact_mod_cast hcap
  have hlt : (x % (cap : Int)).toNat < cap := by
    have h1 : 0 ≤ x % (cap : Int) := Int.emod_nonneg x (by omega)
    have h2 : x % (cap : Int) < cap := Int.emod_lt_of_pos x hcap'
    omega
  unfold ring_slice
  simp only [lt_irrefl, if_false, if_pos rfl, if_true]
  rw [List.rotate_eq_drop_append_take (by omega)]

theorem viewLastN_full (st : TickerState) (hcap : 0 < st.header.capacity)
    (hw : st.header.write_idx < st.header.capacity)
    (hts : st.ts.length = st.header.capacity)
    (ho : st.o.length = st.header.capacity)
    (hh : st.h.length = st.header.capacity)
    (hl : st.l.length = st.header.capacity)
    (hc : st.c.length = st.header.capacity)
    (hv : st.v.length = st.header.capacity) :
    viewLastN st st.header.capacity =
      { ts := st.ts.rotate st.header.write_idx,
        o := st.o.rotate st.header.write_idx,
        h := st.h.rotate st.header.write_idx,
        l := st.l.rotate st.header.write_idx,
        c := st.c.rotate st.header.write_idx,
        v := st.v.rotate st.header.write_idx } := by
  have hx : (((st.header.write_idx : Int)) % ((st.header.capacity : Nat) : Int)).toNat
      = st.header.write_idx := by
    rw [Int.emod_eq_of_lt (by positivity) (by exact_mod_cast hw)]
    exact Int.toNat_natCast _
  have key : ∀ (α : Type) (col : List α), col.length = st.header.capacity →
      ring_slice col
        (((st.header.write_idx : Int)
            - ((min st.header.capacity st.header.capacity : Nat) : Int))
          % ((st.header.capacity : Nat) : Int))
        (st.header.write_idx : Int) st.header.capacity
      = col.rotate st.header.write_idx := by
    intro α col hlen
    have h1 : (((st.header.write_idx : Int)
          - ((min st.header.capacity st.header.capacity : Nat) : Int))
            % ((st.header.capacity : Nat) : Int)) % ((st.header.capacity : Nat) : Int)
        = ((st.header.write_idx : Int)) % ((st.header.capacity : Nat) : Int) := by
      rw [Int.emod_emod_of_dvd _ dvd_rfl]
      simp only [Nat.min_self]
      rw [Int.sub_emod, Int.emod_self, sub_zero, Int.emod_emod_of_dvd _ dvd_rfl]
    rw [ring_slice_congr col _ (st.header.write_idx : Int) (st.header.write_idx : Int)
        (st.header.write_idx : Int) st.header.capacity h1 rfl,
      ring_slice_self col (st.header.write_idx : Int) st.header.capacity hlen hcap, hx]
  simp only [viewLastN]
  rw [key Int st.ts hts, key ℚ st.o ho, key ℚ st.h hh, key ℚ st.l hl,
    key ℚ st.c hc, key Int st.v hv]

theorem viewLastN_zero (st : TickerState) (hcap : 0 < st.header.capacity)
    (hts : st.ts.length = st.header.capacity)
    (ho : st.o.length = st.header.capacity)
    (hh : st.h.length = st.header.capacity)
    (hl : st.l.length = st.header.capacity)
    (hc : st.c.length = st.header.capacity)
    (hv : st.v.length = st.header.capacity) :
    viewLastN st 0 =
      { ts := st.ts.rotate (st.header.write_idx % st.header.capacity),
        o := st.o.rotate (st.header.write_idx % st.header.capacity),
        h := st.h.rotate (st.header.write_idx % st.header.capacity),
        l := st.l.rotate (st.header.write_idx % st.header.capacity),
        c := st.c.rotate (st.header.write_idx % st.header.capacity),
        v := st.v.rotate (st.header.write_idx % st.header.capacity) } := by
  have hx : (((st.header.write_idx : Int)) % ((st.header.capacity : Nat) : Int)).toNat
      = st.header.write_idx % st.header.capacity := by
    norm_cast
  have key : ∀ (α : Type) (col : List α), col.length = st.header.capacity →
      ring_slice col
        (((st.header.write_idx : Int) - ((min 0 st.header.capacity : Nat) : Int))
          % ((st.header.capacity : Nat) : Int))
        (st.header.write_idx : Int) st.header.capacity
      = col.rotate (st.header.write_idx % st.header.capacity) := by
    intro α col hlen
    have h1 : (((st.header.write_idx : Int) - ((min 0 st.header.capacity : Nat) : Int))
            % ((st.header.capacity : Nat) : Int)) % ((st.header.capacity : Nat) : Int)
        = ((st.header.write_idx : Int)) % ((st.header.capacity : Nat) : Int) := by
      rw [Int.emod_emod_of_dvd _ dvd_rfl]
      simp only [Nat.zero_min, Nat.cast_zero, sub_zero]
    rw [ring_slice_congr col _ (st.header.write_idx : Int) (st.header.write_idx : Int)
        (st.header.write_idx : Int) st.header.capacity h1 rfl,
      ring_slice_self col (st.header.write_idx : Int) st.header.capacity hlen hcap, hx]
  simp only [viewLastN]
  rw [key Int st.ts hts, key ℚ st.o ho, key ℚ st.h hh, key ℚ st.l hl,
    key ℚ st.c hc, key Int st.v hv]

theorem appendAll_lengths (rows : List Row) (st : TickerState) :
    (appendAll st rows).ts.length = st.ts.length ∧
    (appendAll st rows).o.length = st.o.length ∧
    (appendAll st rows).h.length = st.h.length ∧
    (appendAll st rows).l.length = st.l.length ∧
    (appendAll st rows).c.length = st.c.length ∧
    (appendAll st rows).v.length = st.v.length := by
  obtain ⟨-, h1, h2, h3, h4, h5, h6⟩ := appendAll_fields rows st
  exact ⟨by rw [h1, writeSeq_length], by rw [h2, writeSeq_length], by rw [h3, writeSeq_length],
    by rw [h4, writeSeq_length], by rw [h5, writeSeq_length], by rw [h6, writeSeq_length]⟩

theorem appendAll_view_full (cap k : Nat) (rows : List Row) (hcap : 0 < cap)
    (hlen : rows.length = cap + k) :
    viewLastN (appendAll (initState cap) rows) cap = colsOfRows (rows.drop k) := by
  have hfold : appendAll (initState cap) rows
      = appendAll (appendAll (initState cap) (rows.take k)) (rows.drop k) := by
    conv_lhs => rw [← List.take_append_drop k rows]
    simp only [appendAll]
    exact List.foldl_append _ _ _ _
  set mid := appendAll (initState cap) (rows.take k) with hmiddef
  have hmid_fields := appendAll_fields (rows.take k) (initState cap)
  have hmid_cap : mid.header.capacity = cap := hmid_fields.1
  have htklen : (rows.take k).length = k := by rw [List.length_take]; omega
  have hmid_wi : mid.header.write_idx = k % cap := by
    rw [hmiddef, appendAll_write_idx (rows.take k) (initState cap) hcap hcap]
    simp [initState, htklen]
  have hmid_lens := appendAll_lengths (rows.take k) (initState cap)
  have hmidts : mid.ts.length = cap := by
    rw [← hmiddef] at hmid_lens
    rw [hmid_lens.1]; simp [initState]
  have hmido : mid.o.length = cap := by rw [hmid_lens.2.1]; simp [initState]
  have hmidh : mid.h.length = cap := by rw [hmid_lens.2.2.1]; simp [initState]
  have hmidl : mid.l.length = cap := by rw [hmid_lens.2.2.2.1]; simp [initState]
  have hmidc : mid.c.length = cap := by rw [hmid_lens.2.2.2.2.1]; simp [initState]
  have hmidv : mid.v.length = cap := by rw [hmid_lens.2.2.2.2.2]; simp [initState]
  have hdroplen : (rows.drop k).length = cap := by rw [List.length_drop]; omega
  have hfin_fields := appendAll_fields (rows.drop k) mid
  have hfin_cap : (appendAll mid (rows.drop k)).header.capacity = cap :=
    hfin_fields.1.trans hmid_cap
  have hmid_wi_lt : mid.header.write_idx < mid.header.capacity := by
    rw [hmid_wi, hmid_cap]; exact Nat.mod_lt _ hcap
  have hfin_wi : (appendAll mid (rows.drop k)).header.write_idx = k % cap := by
    rw [appendAll_write_idx _ mid (by rw [hmid_cap]; exact hcap) hmid_wi_lt,
      hmid_wi, hmid_cap, hdroplen]
    simp [Nat.add_mod_right]
  have hfin_lens := appendAll_lengths (rows.drop k) mid
  have hview := viewLastN_full (appendAll mid (rows.drop k))
    (by rw [hfin_cap]; exact hcap)
    (by rw [hfin_wi, hfin_cap]; exact Nat.mod_lt _ hcap)
    (hfin_lens.1.trans (hmidts.trans hfin_cap.symm))
    (hfin_lens.2.1.trans (hmido.trans hfin_cap.symm))
    (hfin_lens.2.2.1.trans (hmidh.trans hfin_cap.symm))
    (hfin_lens.2.2.2.1.trans (hmidl.trans hfin_cap.symm))
    (hfin_lens.2.2.2.2.1.trans (hmidc.trans hfin_cap.symm))
    (hfin_lens.2.2.2.2.2.trans (hmidv.trans hfin_cap.symm))
  rw [hfold, show cap = (appendAll mid (rows.drop k)).header.capacity from hfin_cap.symm,
    hview]
  have rot : ∀ (α : Type) (colMid xs : List α), colMid.length = cap → xs.length = cap →
      (writeSeq cap colMid (k % cap) xs).rotate (k % cap) = xs :=
    fun α colMid xs h1 h2 =>
      writeSeq_full_rotate cap hcap colMid xs (k % cap) h1 h2 (Nat.mod_lt _ hcap)
  have hmapl : ∀ (f : Row → Int), ((rows.drop k).map f).length = cap := by
    intro f; rw [List.length_map, hdroplen]
  have hmaplQ : ∀ (f : Row → ℚ), ((rows.drop k).map f).length = cap := by
    intro f; rw [List.length_map, hdroplen]
  obtain ⟨-, f1, f2, f3, f4, f5, f6⟩ := hfin_fields
  rw [hfin_wi, f1, f2, f3, f4, f5, f6, hmid_cap, hmid_wi]
  simp only [colsOfRows]
  rw [rot Int mid.ts _ hmidts (hmapl Row.ts), rot ℚ mid.o _ hmido (hmaplQ Row.o),
    rot ℚ mid.h _ hmidh (hmaplQ Row.h), rot ℚ mid.l _ hmidl (hmaplQ Row.l),
    rot ℚ mid.c _ hmidc (hmaplQ Row.c), rot Int mid.v _ hmidv (hmapl Row.v)]

/-- C5: after appending `capacity + k` rows (`k ≥ 0`) with strictly increasing
timestamps into a freshly initialized ring of size `capacity > 0`,
`view_last_n(capacity)` returns exactly the `capacity` most recently appended
rows in chronological order and none of the earliest `k` appended rows
appears; in particular, after appending `ts = 0..6` into a capacity-5 ring,
`view_last_n(3)` yields timestamps `[4,5,6]` and `view_since(3)` yields the
rows with timestamps `[4,5,6]`. -/
theorem view_last_n_ring_eviction (cap k : Nat) (rows : List Row)
    (hcap : 0 < cap) (hlen : rows.length = cap + k)
    (hmono : List.Chain' (fun a b : Row => a.ts < b.ts) rows) :
    (viewLastN (appendAll (initState cap) rows) cap = colsOfRows (rows.drop k)
      ∧ List.Chain' (· < ·) ((viewLastN (appendAll (initState cap) rows) cap).ts)
      ∧ ∀ r ∈ rows.take k, r.ts ∉ ((viewLastN (appendAll (initState cap) rows) cap).ts))
    ∧ (viewLastN scenarioState 3).ts = [4, 5, 6]
    ∧ viewSince scenarioState 3 = colsOfRows (((List.range 7).map scenarioRow).drop 4) := by
  have hts_chain : List.Chain' (· < ·) (rows.map Row.ts) :=
    List.chain'_map_of_chain' Row.ts (fun _ _ hh => hh) hmono
  refine ⟨⟨appendAll_view_full cap k rows hcap hlen, ?_, ?_⟩, by decide, by decide⟩
  · rw [appendAll_view_full cap k rows hcap hlen]
    show List.Chain' (· < ·) ((rows.drop k).map Row.ts)
    rw [List.map_drop]
    exact List.Chain'.sublist hts_chain (List.drop_sublist _ _)
  · intro r hr hmem
    rw [appendAll_view_full cap k rows hcap hlen] at hmem
    have hmem' : r.ts ∈ (rows.drop k).map Row.ts := hmem
    have hpair : List.Pairwise (· < ·) (rows.map Row.ts) :=
      List.chain'_iff_pairwise.mp hts_chain
    have hsplit : rows.map Row.ts = (rows.take k).map Row.ts ++ (rows.drop k).map Row.ts := by
      rw [List.map_take, List.map_drop, List.take_append_drop]
    rw [hsplit] at hpair
    have hcross := (List.pairwise_append.mp hpair).2.2
    have hlt : r.ts < r.ts :=
      hcross r.ts (List.mem_map_of_mem Row.ts hr) r.ts hmem'
    exact lt_irrefl _ hlt

/-- Witness for `view_last_n_ring_eviction`: the ts 0..6 / capacity-5 instance. -/
theorem view_last_n_ring_eviction_witness :
    viewLastN (appendAll (initState 5) ((List.range 7).map scenarioRow)) 5
      = colsOfRows ((((List.range 7).map scenarioRow)).drop 2) :=
  (view_last_n_ring_eviction 5 2 ((List.range 7).map scenarioRow)
    (by decide) (by decide) (by simp [List.range_succ, scenarioRow])).1.1

end ColumnarRing

namespace ColumnarRing

/-- C10: for every ticker state with capacity > 0 (and well-formed column
lengths), `view_last_n(ticker, 0)` does not return empty columns: the window
start equals the write index, the full-buffer branch of `ring_slice` applies,
and every column comes back as the full rotation of its stored slots — all
`capacity` stored slots of every column are returned. -/
theorem view_last_n_zero_full_buffer (st : TickerState)
    (hcap : 0 < st.header.capacity)
    (hts : st.ts.length = st.header.capacity)
    (ho : st.o.length = st.header.capacity)
    (hh : st.h.length = st.header.capacity)
    (hl : st.l.length = st.header.capacity)
    (hc : st.c.length = st.header.capacity)
    (hv : st.v.length = st.header.capacity) :
    viewLastN st 0 =
      { ts := st.ts.rotate (st.header.write_idx % st.header.capacity),
        o := st.o.rotate (st.header.write_idx % st.header.capacity),
        h := st.h.rotate (st.header.write_idx % st.header.capacity),
        l := st.l.rotate (st.header.write_idx % st.header.capacity),
        c := st.c.rotate (st.header.write_idx % st.header.capacity),
        v := st.v.rotate (st.header.write_idx % st.header.capacity) }
    ∧ (viewLastN st 0).ts.Perm st.ts ∧ (viewLastN st 0).o.Perm st.o
    ∧ (viewLastN st 0).h.Perm st.h ∧ (viewLastN st 0).l.Perm st.l
    ∧ (viewLastN st 0).c.Perm st.c ∧ (viewLastN st 0).v.Perm st.v
    ∧ (viewLastN st 0).ts.length = st.header.capacity
    ∧ (viewLastN st 0).ts ≠ [] := by
  have hz := viewLastN_zero st hcap hts ho hh hl hc hv
  refine ⟨hz, ?_, ?_, ?_, ?_, ?_, ?_, ?_, ?_⟩
  · rw [hz]; exact List.rotate_perm _ _
  · rw [hz]; exact List.rotate_perm _ _
  · rw [hz]; exact List.rotate_perm _ _
  · rw [hz]; exact List.rotate_perm _ _
  · rw [hz]; exact List.rotate_perm _ _
  · rw [hz]; exact List.rotate_perm _ _
  · rw [hz]; simpa [List.length_rotate] using hts
  · rw [hz]
    intro hnil
    have : st.ts.length = 0 := by
      simpa [List.length_rotate] using congrArg List.length hnil
    omega

/-- Witness for `view_last_n_zero_full_buffer`: the capacity-5 scenario state. -/
theorem view_last_n_zero_full_buffer_witness :
    (viewLastN scenarioState 0).ts.Perm scenarioState.ts :=
  (view_last_n_zero_full_buffer scenarioState (by decide) (by decide) (by decide)
    (by decide) (by decide) (by decide) (by decide)).2.1

end ColumnarRing

namespace ColumnarLayout

/-- C3 counterexample: with `arr = [0,1,2]`, `s = e = 1`, `cap = 3`, the code
returns `[1, 2, 0]` — the buffer rotated to start at `s`, not the entire
buffer in original index order `[0, 1, 2]`. -/
theorem ring_slice_equal_indices_not_original_order :
    ring_slice ([0, 1, 2] : List Nat) 1 1 3 = [1, 2, 0] ∧
    ring_slice ([0, 1, 2] : List Nat) 1 1 3 ≠ [0, 1, 2] := by decide

/-- C3 amended: for an array of length `cap > 0`, after reducing `s` and `e`
modulo `cap`, `ring_slice` returns `arr[s:e]` when `s < e` and
`arr[s:] ++ arr[:e]` when `s > e`; when `s == e` it returns
`arr[s:] ++ arr[:s]` — the entire buffer (a permutation of it, of full length)
in rotated ring order starting at `s`, which is the original index order only
when the reduced `s` is `0`. -/
theorem ring_slice_cases {α : Type} (arr : List α) (s e : Int) (cap : Nat)
    (hcap : 0 < cap) (hlen : arr.length = cap) :
    ((s % (cap : Int)).toNat < (e % (cap : Int)).toNat →
        ring_slice arr s e cap
          = (arr.drop (s % (cap : Int)).toNat).take
              ((e % (cap : Int)).toNat - (s % (cap : Int)).toNat))
    ∧ ((s % (cap : Int)).toNat = (e % (cap : Int)).toNat →
        ring_slice arr s e cap
            = arr.drop (s % (cap : Int)).toNat ++ arr.take (s % (cap : Int)).toNat
          ∧ (ring_slice arr s e cap).Perm arr
          ∧ (ring_slice arr s e cap).length = cap)
    ∧ ((e % (cap : Int)).toNat < (s % (cap : Int)).toNat →
        ring_slice arr s e cap
          = arr.drop (s % (cap : Int)).toNat ++ arr.take (e % (cap : Int)).toNat) := by
  have hcap' : (0 : Int) < (cap : Int) := by exact_mod_cast hcap
  have hslt : (s % (cap : Int)).toNat < cap := by
    have h1 : 0 ≤ s % (cap : Int) := Int.emod_nonneg s (by omega)
    have h2 : s % (cap : Int) < cap := Int.emod_lt_of_pos s hcap'
    omega
  refine ⟨fun h => ?_, fun h => ?_, fun h => ?_⟩
  · simp only [ring_slice, if_pos h]
  · have heq : ring_slice arr s e cap
        = arr.drop (s % (cap : Int)).toNat ++ arr.take (s % (cap : Int)).toNat := by
      simp only [ring_slice, ← h, lt_irrefl, if_false, if_pos rfl, if_true]
    refine ⟨heq, ?_, ?_⟩
    · rw [heq, ← List.rotate_eq_drop_append_take (by omega)]
      exact List.rotate_perm _ _
    · rw [heq, List.length_append, List.length_drop, List.length_take]
      omega
  · simp only [ring_slice, if_neg (by omega : ¬ (s % (cap : Int)).toNat < (e % (cap : Int)).toNat),
      if_neg (by omega : ¬ (s % (cap : Int)).toNat = (e % (cap : Int)).toNat)]

/-- Witness for `ring_slice_cases`: the `s = e = 2`, `cap = 3` instance. -/
theorem ring_slice_cases_witness :
    ring_slice ([10, 20, 30] : List Nat) 2 2 3 = [30, 10, 20] := by
  have h := (ring_slice_cases ([10, 20, 30] : List Nat) 2 2 3 (by decide) (by decide)).2.1
    (by decide)
  rw [h.1]
  decide

/-- C2 counterexample: `struct.Struct("<QQQI")` packs three u64 fields and one
u32 field into 28 bytes, not 24, so the timestamp column begins 28 bytes after
the ticker's base offset. -/
theorem header_not_24_bytes :
    HEADER_SIZE = 28 ∧ HEADER_SIZE ≠ 24 ∧ (compute_layout 0 10).ts_off ≠ 0 + 24 := by
  decide

/-- C2 amended: the per-ticker header occupies exactly 28 bytes in its
little-endian no-padding encoding, so for every ticker the timestamp column
begins 28 bytes after the ticker's base offset, the six columns follow
contiguously with no padding (8, 4, 4, 4, 4 and 8 bytes per slot), and the
fixed region size is the sum over tickers of 28 bytes plus the six column
sizes (32·capacity bytes). -/
theorem layout_header_28_bytes (base cap : Nat) (caps : List Nat) :
    HEADER_SIZE = 28
    ∧ (compute_layout base cap).ts_off = base + 28
    ∧ (compute_layout base cap).o_off = (compute_layout base cap).ts_off + 8 * cap
    ∧ (compute_layout base cap).h_off = (compute_layout base cap).o_off + 4 * cap
    ∧ (compute_layout base cap).l_off = (compute_layout base cap).h_off + 4 * cap
    ∧ (compute_layout base cap).c_off = (compute_layout base cap).l_off + 4 * cap
    ∧ (compute_layout base cap).v_off = (compute_layout base cap).c_off + 4 * cap
    ∧ (compute_layout base cap).ending = (compute_layout base cap).v_off + 8 * cap
    ∧ (compute_layout base cap).ending = base + 28 + 32 * cap
    ∧ totalRegionSize caps = (caps.map (fun c => 28 + 32 * c)).sum := by
  have hspan : tickerSpan = fun c => 28 + 32 * c := by
    funext c
    simp only [tickerSpan, compute_layout, HEADER_SIZE]
    omega
  refine ⟨rfl, rfl, rfl, rfl, rfl, rfl, rfl, rfl, ?_, ?_⟩
  · simp only [compute_layout, HEADER_SIZE]
    omega
  · rw [totalRegionSize, hspan]

end ColumnarLayout

namespace ReaderRetry

open ColumnarRing

/-- C4 counterexample: against a region whose seqlock is permanently odd,
`_read_cols` returns column data whose final bracketing header read is odd —
no error is surfaced, refuting the claim that data observed under an odd
seqlock is never silently returned. -/
theorem read_cols_returns_unstable_data :
    (readCols oddTrace).2.seqlock % 2 = 1
    ∧ (readCols oddTrace).1 = colsOf (oddTrace 3)
    ∧ ¬ (∀ t : Nat → TickerState, (readCols t).2.seqlock % 2 = 0) := by
  refine ⟨by decide, by decide, fun hall => absurd (hall oddTrace) (by decide)⟩

/-- C4 amended: when the bracketing header reads disagree or the second is
odd, `_read_cols` retries the column read exactly once and returns that second
read unconditionally — it performs no stability check on the retry and has no
error outcome, so data read under a still-odd seqlock can be returned
silently; a stable even bracket returns the first read. -/
theorem read_cols_single_unconditional_retry (t : Nat → TickerState) :
    (((t 2).header.seqlock % 2 = 1 ∨ (t 2).header ≠ (t 0).header) →
        readCols t = (colsOf (t 3), (t 4).header))
    ∧ ((t 2).header.seqlock % 2 = 0 ∧ (t 2).header = (t 0).header →
        readCols t = (colsOf (t 1), (t 2).header)) := by
  constructor
  · intro h
    simp only [readCols, if_pos h]
  · intro h
    have hcond : ¬ ((t 2).header.seqlock % 2 = 1 ∨ (t 2).header ≠ (t 0).header) := by
      push_neg
      exact ⟨by omega, h.2⟩
    simp only [readCols, if_neg hcond]

/-- Witness for `read_cols_single_unconditional_retry`: the permanently odd
trace takes the retry branch. -/
theorem read_cols_single_unconditional_retry_witness :
    readCols oddTrace = (colsOf (oddTrace 3), (oddTrace 4).header) :=
  (read_cols_single_unconditional_retry oddTrace).1 (by decide)

end ReaderRetry

namespace Arbitration

/-- C1: against the spec-modelled arbitration state machine, starting `FREE`
with no download in progress: `acquire_ibkr` from connection A answers
`{status:"acquired"}` (instructing the collaborator to disconnect); a second
`acquire_ibkr` from connection B answers a `CONFLICT` error and leaves the
state `HELD A`; `release_ibkr` answers `{status:"released"}` (instructing a
reconnect) and returns to `FREE`; a second `release_ibkr` answers a
`BAD_REQUEST` error; and an `acquire_ibkr` issued while a download is in
progress answers `{status:"denied", reason:"wait until stock download is
finished"}` with the state unchanged. -/
theorem arbitration_scenario :
    acquireIbkr 0 freeIdle
      = ({ owner := .held 0, downloading := false },
          .statusReply "acquired" none, [.disconnectTws])
    ∧ acquireIbkr 1 { owner := .held 0, downloading := false }
      = ({ owner := .held 0, downloading := false }, .errReply "CONFLICT", [])
    ∧ releaseIbkr { owner := .held 0, downloading := false }
      = (freeIdle, .statusReply "released" none, [.connectTws])
    ∧ releaseIbkr freeIdle = (freeIdle, .errReply "BAD_REQUEST", [])
    ∧ acquireIbkr 0 { owner := .free, downloading := true }
      = ({ owner := .free, downloading := true },
          .statusReply "denied" (some "wait until stock download is finished"), []) := by
  refine ⟨rfl, rfl, rfl, rfl, rfl⟩

end Arbitration

namespace QuoteServer

open Snapshot

/-- C7: `get_quote` on a ticker absent from the quote cache is answered with a
`NOT_FOUND` error; on a present ticker it returns the cached quote with
`stale = true` iff `now_ms - ts_epoch_ms > freshness_window_ms` (default
90,000 ms), where equality at the boundary is not stale. -/
theorem get_quote_not_found_and_stale (cache : List (String × Quote)) (r : Request)
    (t : String) (now w : Int) (ht : r.ticker = some t) :
    (alookup cache t = none →
        getQuoteResponse cache now w r = .err r.id "NOT_FOUND" ("Unknown ticker " ++ t))
    ∧ (∀ q, alookup cache t = some q →
        getQuoteResponse cache now w r
            = .ok r.id "get_quote" (.quote q t (decide (now - q.ts_epoch_ms.getD 0 > w)))
          ∧ (staleOf (getQuoteResponse cache now w r) = some true
              ↔ now - q.ts_epoch_ms.getD 0 > w))
    ∧ (∀ q, alookup cache t = some q → now - q.ts_epoch_ms.getD 0 = w →
        staleOf (getQuoteResponse cache now w r) = some false)
    ∧ defaultFreshnessWindowMs = 90000 := by
  refine ⟨fun hnone => ?_, fun q hq => ?_, fun q hq hb => ?_, rfl⟩
  · simp [getQuoteResponse, ht, hnone]
  · constructor
    · simp [getQuoteResponse, ht, hq]
    · simp [getQuoteResponse, ht, hq, staleOf]
  · have : ¬ (now - q.ts_epoch_ms.getD 0 > w) := by omega
    simp [getQuoteResponse, ht, hq, staleOf, this]

/-- Witness for `get_quote_not_found_and_stale`: an empty cache answers the
`AAPL` request with `NOT_FOUND`. -/
theorem get_quote_not_found_and_stale_witness :
    getQuoteResponse [] 0 defaultFreshnessWindowMs aaplQuoteRequest
      = .err aaplQuoteRequest.id "NOT_FOUND" ("Unknown ticker " ++ "AAPL") :=
  (get_quote_not_found_and_stale [] aaplQuoteRequest "AAPL" 0
    defaultFreshnessWindowMs rfl).1 rfl

/-- C9: the request line `{v:1}` (missing both `id` and `type`) is answered
with exactly one `BAD_REQUEST` error whose message names both `id` and `type`;
in general any of the envelope fields `v`, `id`, `type` missing produces a
single `BAD_REQUEST` whose message names all missing fields together. -/
theorem envelope_missing_fields (r : Request)
    (hmiss : r.v ≠ some 1 ∨ r.id = none ∨ r.hasTypeField = false) :
    (envelopeResult r
        = some (.err r.id "BAD_REQUEST"
            ("Missing required fields: " ++ String.intercalate ", " (missingFields r)))
      ∧ ("v" ∈ missingFields r ↔ r.v ≠ some 1)
      ∧ ("id" ∈ missingFields r ↔ r.id = none)
      ∧ ("type" ∈ missingFields r ↔ r.hasTypeField = false))
    ∧ envelopeResult vOnlyRequest
        = some (.err none "BAD_REQUEST" "Missing required fields: id, type") := by
  have hne : missingFields r ≠ [] := by
    rcases hmiss with h | h | h
    · have : "v" ∈ missingFields r := by simp [missingFields, h]
      exact fun hnil => by simp [hnil] at this
    · have : "id" ∈ missingFields r := by simp [missingFields, h]
      exact fun hnil => by simp [hnil] at this
    · have : "type" ∈ missingFields r := by simp [missingFields, h]
      exact fun hnil => by simp [hnil] at this
  refine ⟨⟨by simp [envelopeResult, hne], ?_, ?_, ?_⟩, by decide⟩
  · by_cases hv : r.v = some 1 <;> by_cases hid : r.id = none <;>
      by_cases hty : r.hasTypeField <;> simp [missingFields, hv, hid, hty]
  · by_cases hv : r.v = some 1 <;> by_cases hid : r.id = none <;>
      by_cases hty : r.hasTypeField <;> simp [missingFields, hv, hid, hty]
  · by_cases hv : r.v = some 1 <;> by_cases hid : r.id = none <;>
      by_cases hty : r.hasTypeField <;> simp [missingFields, hv, hid, hty]

/-- Witness for `envelope_missing_fields`: instantiated at the `{v:1}` line. -/
theorem envelope_missing_fields_witness :
    envelopeResult vOnlyRequest
      = some (.err none "BAD_REQUEST" "Missing required fields: id, type") :=
  (envelope_missing_fields vOnlyRequest (Or.inr (Or.inl rfl))).2

end QuoteServer

namespace Snapshot

theorem alookup_aset_self {α : Type} :
    ∀ (l : List (String × α)) (k : String) (v : α), alookup (aset l k v) k = some v
  | [], k, v => by simp [aset, alookup]
  | (k', v') :: rest, k, v => by
    by_cases h : k' = k
    · simp [aset, alookup, h]
    · simp only [aset, if_neg h, alookup, if_neg h]
      exact alookup_aset_self rest k v

theorem alookup_aset_ne {α : Type} :
    ∀ (l : List (String × α)) (k : String) (v : α) (k' : String), k' ≠ k →
      alookup (aset l k v) k' = alookup l k'
  | [], k, v, k', hne => by
    have h : ¬ k = k' := fun hh => hne hh.symm
    simp [aset, alookup, h]
  | (k0, v0) :: rest, k, v, k', hne => by
    by_cases h : k0 = k
    · subst h
      have h' : ¬ k0 = k' := fun hh => hne hh.symm
      simp [aset, alookup, h']
    · simp only [aset, if_neg h, alookup]
      by_cases h0 : k0 = k'
      · simp [h0]
      · simp only [if_neg h0]
        exact alookup_aset_ne rest k v k' hne

theorem foldl_writeOne_snapshot_state (dateMs : String → Int) (now : Int) (pid : Nat) :
    ∀ (records : List TickerRecord) (st : ManagerState),
      (records.foldl (writeOne dateMs now pid) st).snapshot_state = st.snapshot_state
  | [], _ => rfl
  | _ :: rest, _ => foldl_writeOne_snapshot_state dateMs now pid rest _

theorem writeOne_dictEven (dateMs : String → Int) (now : Int) (pid : Nat)
    (st : ManagerState) (rec : TickerRecord) (h : dictEven st.shared_dict) :
    dictEven (writeOne dateMs now pid st rec).shared_dict := by
  intro k en hk
  simp only [writeOne] at hk
  by_cases hkey : k = rec.ticker
  · subst hkey
    rw [alookup_aset_self] at hk
    cases hk0 : alookup st.shared_dict rec.ticker with
    | none =>
      rw [hk0] at hk
      simp only [Option.getD] at hk
      cases hk
      simp
    | some e0 =>
      rw [hk0] at hk
      simp only [Option.getD] at hk
      cases hk
      have := h rec.ticker e0 hk0
      simp
      omega
  · rw [alookup_aset_ne _ _ _ _ hkey, alookup_aset_ne _ _ _ _ hkey] at hk
    exact h k en hk

theorem foldl_writeOne_dictEven (dateMs : String → Int) (now : Int) (pid : Nat) :
    ∀ (records : List TickerRecord) (st : ManagerState), dictEven st.shared_dict →
      dictEven (records.foldl (writeOne dateMs now pid) st).shared_dict
  | [], _, h => h
  | rec :: rest, st, h =>
    foldl_writeOne_dictEven dateMs now pid rest _
      (writeOne_dictEven dateMs now pid st rec h)

theorem foldl_writeOne_cache_untouched (dateMs : String → Int) (now : Int) (pid : Nat) :
    ∀ (records : List TickerRecord) (st : ManagerState) (k : String),
      k ∉ records.map (fun rec => rec.ticker) →
      alookup (records.foldl (writeOne dateMs now pid) st).quote_cache k
        = alookup st.quote_cache k
  | [], _, _, _ => rfl
  | rec :: rest, st, k, hnot => by
    have hk : k ≠ rec.ticker := by
      intro h
      exact hnot (by simp [h])
    have hrest : k ∉ rest.map (fun rec => rec.ticker) := by
      intro h
      exact hnot (by simp [h])
    rw [List.foldl_cons,
      foldl_writeOne_cache_untouched dateMs now pid rest _ k hrest]
    simp only [writeOne]
    cases hlast : rec.df.getLast? with
    | none => rfl
    | some last => exact alookup_aset_ne _ _ _ _ hk

theorem foldl_writeOne_cache_hit (dateMs : String → Int) (now : Int) (pid : Nat) :
    ∀ (records : List TickerRecord) (st : ManagerState),
      (records.map (fun rec => rec.ticker)).Nodup →
      ∀ rec ∈ records, ∀ last, rec.df.getLast? = some last →
        alookup (records.foldl (writeOne dateMs now pid) st).quote_cache rec.ticker
          = some { price := last.Close, volume := last.Volume, currency := "USD",
                   ts_epoch_ms := some (dateMs last.Date),
                   source := "shared_memory_manager" }
  | [], _, _, rec, hrec, _, _ => absurd hrec (by simp)
  | r0 :: rest, st, hnodup, rec, hrec, last, hlast => by
    rw [List.map_cons, List.nodup_cons] at hnodup
    rcases List.mem_cons.mp hrec with heq | hmem
    · subst heq
      have hnot : rec.ticker ∉ rest.map (fun r => r.ticker) := hnodup.1
      rw [List.foldl_cons,
        foldl_writeOne_cache_untouched dateMs now pid rest _ rec.ticker hnot]
      simp only [writeOne, hlast]
      exact alookup_aset_self _ _ _
    · rw [List.foldl_cons]
      exact foldl_writeOne_cache_hit dateMs now pid rest _ hnodup.2 rec hmem last hlast

/-- C6: each completed `write_data` batch leaves `GlobalSnapshotState.epoch`
exactly 2 greater than its pre-batch value (hence even whenever the pre-batch
value was even, as it always is from the initial 0), leaves every entry of the
shared dictionary — in particular every written one — with an even header
epoch provided all entries were even before the batch, and updates
`QuoteCache[ticker]` so that its price equals the `Close` of the record's last
row; in particular publishing `AAPL` with close 11.5 from a fresh manager
makes a subsequent `get_quote("AAPL")` return price 11.5, stores an even entry
epoch, and raises the global epoch from 0 to the even value 2. -/
theorem write_data_epoch_and_quote (dateMs : String → Int) (now : Int) (pid : Nat)
    (st : ManagerState) (records : List TickerRecord) :
    ((write_data dateMs now pid st records).snapshot_state.epoch
        = st.snapshot_state.epoch + 2
      ∧ (st.snapshot_state.epoch % 2 = 0 →
          (write_data dateMs now pid st records).snapshot_state.epoch % 2 = 0)
      ∧ (dictEven st.shared_dict →
          dictEven (write_data dateMs now pid st records).shared_dict)
      ∧ ((records.map (fun rec => rec.ticker)).Nodup →
          ∀ rec ∈ records, ∀ last, rec.df.getLast? = some last →
            (alookup (write_data dateMs now pid st records).quote_cache
                rec.ticker).map (fun q => q.price)
              = some last.Close))
    ∧ ((alookup scenarioManager.quote_cache "AAPL").map (fun q => q.price)
        = some (11.5 : ℚ)
      ∧ QuoteServer.priceOf (QuoteServer.getQuoteResponse scenarioManager.quote_cache
            (demoDateMs "") QuoteServer.defaultFreshnessWindowMs
            QuoteServer.aaplQuoteRequest)
          = some (11.5 : ℚ)
      ∧ (alookup scenarioManager.shared_dict "AAPL").map
            (fun en => en.header.epoch % 2)
          = some 0
      ∧ scenarioManager.snapshot_state.epoch = initManager.snapshot_state.epoch + 2
      ∧ scenarioManager.snapshot_state.epoch % 2 = 0) := by
  have hepoch : (write_data dateMs now pid st records).snapshot_state.epoch
      = st.snapshot_state.epoch + 2 := by
    simp only [write_data]
    rw [foldl_writeOne_snapshot_state]
  refine ⟨⟨hepoch, fun he => by omega, fun hde => ?_, fun hnodup rec hrec last hlast => ?_⟩,
    ?_, ?_, ?_, ?_, ?_⟩
  · simp only [write_data]
    exact foldl_writeOne_dictEven dateMs now pid records _ hde
  · simp only [write_data]
    rw [foldl_writeOne_cache_hit dateMs now pid records _ hnodup rec hrec last hlast]
    rfl
  · simp [scenarioManager, write_data, writeOne, initManager, aaplRecord, demoDateMs,
      alookup, aset]
  · simp [scenarioManager, write_data, writeOne, initManager, aaplRecord, demoDateMs,
      alookup, aset, QuoteServer.getQuoteResponse, QuoteServer.priceOf,
      QuoteServer.aaplQuoteRequest, QuoteServer.defaultFreshnessWindowMs]
  · simp [scenarioManager, write_data, writeOne, initManager, aaplRecord, demoDateMs,
      alookup, aset]
  · simp [scenarioManager, write_data, writeOne, initManager, aaplRecord, demoDateMs,
      alookup, aset]
  · simp [scenarioManager, write_data, writeOne, initManager, aaplRecord, demoDateMs,
      alookup, aset]

/-- Witness for `write_data_epoch_and_quote`: the fresh-manager `AAPL`
scenario batch. -/
theorem write_data_epoch_and_quote_witness :
    (alookup (write_data demoDateMs (demoDateMs "") 41 initManager
        [aaplRecord]).quote_cache "AAPL").map (fun q => q.price)
      = some ((11.5 : ℚ)) :=
  (write_data_epoch_and_quote demoDateMs (demoDateMs "") 41 initManager
    [aaplRecord]).1.2.2.2 (by simp [aaplRecord]) aaplRecord (by simp)
    { Date := "2024-01-01", Open := 11.5, High := 11.5, Low := 11.5,
      Close := 11.5, Volume := 1500 } (by simp [aaplRecord])

end Snapshot

namespace SnapshotReader

open Snapshot

theorem getStockGo_payload_bracket (loads : Nat → LoadObs) (t : String) :
    ∀ (fuel pos : Nat) (p : Option TickerRecord),
      getStockGo loads t pos fuel = .payload p →
      ∃ i d en e d2, loads i = .ok d ∧ alookup d t = some en ∧ en.epoch = some e
        ∧ e % 2 = 0 ∧ en.data = p ∧ loads (i + 1) = .ok d2 ∧ epochOf d2 t = some e := by
  intro fuel
  induction fuel with
  | zero => intro pos p h; simp [getStockGo] at h
  | succ fuel ih =>
    intro pos p h
    revert h
    rw [getStockGo]
    cases hl : loads pos with
    | decodeErr => intro h; exact ih _ _ h
    | ok d =>
      dsimp only
      cases hlook : alookup d t with
      | none => intro h; exact absurd h (by simp)
      | some entry =>
        dsimp only
        cases hep : entry.epoch with
        | none => intro h; exact ih _ _ h
        | some e1 =>
          dsimp only
          by_cases hoddc : e1 % 2 ≠ 0
          · rw [if_pos hoddc]
            intro h; exact ih _ _ h
          · rw [if_neg hoddc]
            cases hl2 : loads (pos + 1) with
            | decodeErr => intro h; exact ih _ _ h
            | ok d2 =>
              dsimp only
              by_cases hcond : epochOf d2 t = some e1 ∧ e1 % 2 = 0
              · rw [if_pos hcond]
                intro h
                cases h
                exact ⟨pos, d, entry, e1, d2, hl, hlook, hep, by omega, rfl, hl2, hcond.1⟩
              · rw [if_neg hcond]
                intro h; exact ih _ _ h

theorem getStockGo_allOdd (loads : Nat → LoadObs) (t : String)
    (hodd : ∀ i d, loads i = .ok d →
      ∃ en e, alookup d t = some en ∧ en.epoch = some e ∧ e % 2 = 1) :
    ∀ (fuel pos : Nat), getStockGo loads t pos fuel = .unstable := by
  intro fuel
  induction fuel with
  | zero => intro pos; rfl
  | succ fuel ih =>
    intro pos
    rw [getStockGo]
    cases hl : loads pos with
    | decodeErr => exact ih _
    | ok d =>
      dsimp only
      obtain ⟨en, e, hen, heo, ho1⟩ := hodd pos d hl
      cases hlook : alookup d t with
      | none => rw [hlook] at hen; cases hen
      | some entry =>
        dsimp only
        rw [hlook] at hen
        cases hen
        rw [heo]
        dsimp only
        rw [if_pos (by omega : e % 2 ≠ 0)]
        exact ih _

theorem getStockGo_congr (t : String) :
    ∀ (fuel : Nat) (loads loads' : Nat → LoadObs) (pos : Nat),
      (∀ i, pos ≤ i → i < pos + 2 * fuel → loads i = loads' i) →
      getStockGo loads t pos fuel = getStockGo loads' t pos fuel := by
  intro fuel
  induction fuel with
  | zero => intro loads loads' pos _; rfl
  | succ fuel ih =>
    intro loads loads' pos hagree
    have h0 : loads pos = loads' pos := hagree pos le_rfl (by omega)
    have hnext1 : ∀ i, pos + 1 ≤ i → i < pos + 1 + 2 * fuel → loads i = loads' i :=
      fun i h1 h2 => hagree i (by omega) (by omega)
    have hnext2 : ∀ i, pos + 2 ≤ i → i < pos + 2 + 2 * fuel → loads i = loads' i :=
      fun i h1 h2 => hagree i (by omega) (by omega)
    rw [getStockGo, getStockGo, ← h0]
    cases hl : loads pos with
    | decodeErr => exact ih loads loads' (pos + 1) hnext1
    | ok d =>
      dsimp only
      cases hlook : alookup d t with
      | none => rfl
      | some entry =>
        dsimp only
        cases hep : entry.epoch with
        | none => exact ih loads loads' (pos + 1) hnext1
        | some e1 =>
          dsimp only
          by_cases hoddc : e1 % 2 ≠ 0
          · rw [if_pos hoddc, if_pos hoddc]
            exact ih loads loads' (pos + 1) hnext1
          · rw [if_neg hoddc, if_neg hoddc,
              ← hagree (pos + 1) (by omega) (by omega)]
            cases hl2 : loads (pos + 1) with
            | decodeErr => exact ih loads loads' (pos + 2) hnext2
            | ok d2 =>
              dsimp only
              by_cases hcond : epochOf d2 t = some e1 ∧ e1 % 2 = 0
              · rw [if_pos hcond, if_pos hcond]
              · rw [if_neg hcond, if_neg hcond]
                exact ih loads loads' (pos + 2) hnext2

/-- C8: `get_stock` returns a ticker's data payload only when two consecutive
loads of the region observe the same even per-ticker header epoch (the payload
taken from the first of the bracketing pair); its result depends only on the
first `2·max_retries` loads — the loop runs at most `max_retries` iterations,
each performing at most two loads; and when every load shows the ticker
mid-write (odd epoch), the budget exhausts and the "unstable snapshot" error
is raised instead of returning torn data. -/
theorem get_stock_stability (loads : Nat → LoadObs) (ticker : String)
    (max_retries : Nat) :
    (∀ p, get_stock loads ticker max_retries = .payload p →
        ∃ i d en e d2, loads i = .ok d ∧ alookup d ticker = some en
          ∧ en.epoch = some e ∧ e % 2 = 0 ∧ en.data = p
          ∧ loads (i + 1) = .ok d2 ∧ epochOf d2 ticker = some e)
    ∧ (∀ loads' : Nat → LoadObs, (∀ i, i < 2 * max_retries → loads i = loads' i) →
        get_stock loads ticker max_retries = get_stock loads' ticker max_retries)
    ∧ ((∀ i d, loads i = .ok d →
          ∃ en e, alookup d ticker = some en ∧ en.epoch = some e ∧ e % 2 = 1) →
        get_stock loads ticker max_retries = .unstable) := by
  refine ⟨fun p h => ?_, fun loads2 hagree => ?_, fun hodd => ?_⟩
  · exact getStockGo_payload_bracket loads ticker max_retries 0 p h
  · exact getStockGo_congr ticker max_retries loads loads2 0
      (fun i _ h2 => hagree i (by omega))
  · exact getStockGo_allOdd loads ticker hodd max_retries 0

/-- Witness for `get_stock_stability`: a permanently mid-write segment
exhausts the default retry budget and fails with the unstable-snapshot error. -/
theorem get_stock_stability_witness :
    get_stock oddLoads "AAPL" defaultMaxRetries = .unstable :=
  (get_stock_stability oddLoads "AAPL" defaultMaxRetries).2.2
    (by
      intro i d h
      cases h
      exact ⟨{ epoch := some 1, data := none }, 1, by simp [alookup], rfl, rfl⟩)

end SnapshotReader
